import Mathlib

/-!
Verification of the rate-limiter and session/credential core of the
saas-ecommerce repository (apps/api/src/middleware/rateLimit.ts,
apps/api/src/middleware/auth.ts, apps/api/src/routes/auth.ts).

The TypeScript source is shallowly embedded: JS numbers holding integer
timestamps and counters become `Int`/`Nat`, the external Web Crypto /
node:crypto primitives (PBKDF2 derivation, SHA-256) become fields of an
abstract `Crypto` parameter, random salts and tokens become explicit
arguments, and the D1/KV/DO stores become explicit state values threaded
through the functions.  Route handlers become pure state transformers
returning an inductive response tag (one constructor per distinct
response the handler can produce) together with the updated store.
-/

/-! ## Generic helpers: JS string splitting, parseInt, decimal rendering -/

/-- Model of `token.indexOf('.')` followed by `token.slice(0, i)` /
`token.slice(i + 1)`: split a character list at the first occurrence of
`sep`; `none` when `sep` does not occur (JS `indexOf` returning `-1`). -/
def splitAtFirstChar (sep : Char) : List Char → Option (List Char × List Char)
  | [] => none
  | c :: rest =>
    if c = sep then some ([], rest)
    else
      match splitAtFirstChar sep rest with
      | none => none
      | some (a, b) => some (c :: a, b)

/-- Model of JS `String.prototype.split` with a single-character
separator: `"a$b".split('$') = ["a","b"]`, `"$a".split('$') = ["","a"]`. -/
def splitOnChar (sep : Char) : List Char → List (List Char)
  | [] => [[]]
  | c :: rest =>
    if c = sep then [] :: splitOnChar sep rest
    else
      match splitOnChar sep rest with
      | [] => [[c]]
      | h :: t => (c :: h) :: t

/-- The ten decimal digit characters, used to model JS decimal number
rendering (template interpolation `${n}` of a nonnegative integer). -/
def digitChar : Nat → Char
  | 0 => '0'
  | 1 => '1'
  | 2 => '2'
  | 3 => '3'
  | 4 => '4'
  | 5 => '5'
  | 6 => '6'
  | 7 => '7'
  | 8 => '8'
  | _ => '9'

/-- Fuel-driven core of decimal rendering (structural recursion on the
fuel so that concrete instances reduce definitionally); any fuel above
the digit count gives the digits of `n`, most significant first. -/
def natDecimalDigitsGo : Nat → Nat → List Char
  | 0, _ => []
  | fuel + 1, n =>
    if n < 10 then [digitChar n]
    else natDecimalDigitsGo fuel (n / 10) ++ [digitChar (n % 10)]

/-- Decimal rendering of a natural number as a character list; models the
JS template interpolation `${PBKDF2_ITERATIONS}` in the stored hash
format (JS renders integer-valued numbers in decimal). -/
def natDecimalDigits (n : Nat) : List Char :=
  natDecimalDigitsGo (n + 1) n

/-- Model of JS `parseInt(s, 10)` restricted to the behaviour exercised
here: take the longest digit prefix and read it in base 10; `none`
models a `NaN` result (no digit prefix).  Sign and whitespace handling
of `parseInt` are omitted: on the strings reaching this function a sign
or space would make the result either `NaN` or negative, and both are
rejected by the `Number.isFinite(it) && it >= 100000` guard exactly as
`none` is here. -/
def jsParseIntChars (l : List Char) : Option Nat :=
  match l.takeWhile (fun c => c.isDigit) with
  | [] => none
  | d :: ds => some ((d :: ds).foldl (fun acc c => 10 * acc + (c.toNat - 48)) 0)

/-- Model of JS `String.prototype.toLowerCase` as the per-character
ASCII-range lowercase map (structural, so concrete instances compute;
extensionally `String.toLower` on the strings handled here). -/
def jsToLower (s : String) : String :=
  String.mk (s.data.map Char.toLower)

/-- Model of `timingSafeEqual` (auth.ts): length-first check, then a
bitwise-or accumulation of the XOR of the code units at each position.
`charCodeAt` returns UTF-16 code units; for the hex strings compared
here every character is ASCII, where the code unit equals `Char.toNat`. -/
def timingSafeEqual (a b : String) : Bool :=
  if a.length != b.length then false
  else
    ((List.zipWith (fun x y => x.toNat ^^^ y.toNat) a.data b.data).foldl
      (fun acc d => acc ||| d) 0) == 0

/-! ## Crypto primitives as an abstract parameter

The source calls out to `crypto.subtle` (PBKDF2 via
`importKey`/`deriveBits`, SHA-256 via `digest`) and, on one dev-only
path, to `node:crypto`.  These are external primitives; the embedding
abstracts them as an arbitrary `Crypto` record.  Each field returns the
hex rendering (`toHex`) of the primitive's output, and salts are carried
as their hex strings (`fromHex (toHex salt) = salt` for the well-formed
even-length hex produced by `toHex`). -/

structure Crypto where
  /-- `toHex (deriveBits (PBKDF2, fromHex saltHex, iterations) password)`:
  the hex of the 256-bit PBKDF2-SHA256 key derived from
  `(password, salt, iterations)`. -/
  pbkdf2 : String → String → Nat → String
  /-- `hashToken` (auth.ts): hex of the SHA-256 digest of a token string. -/
  hashToken : String → String
  /-- `createHash('sha256').update(s).digest('hex')` on the node dev path. -/
  sha256hex : String → String
  /-- Whether `globalThis.process` exists (node runtime vs Workers). -/
  hasProcess : Bool

/-! ## Password hashing (auth.ts) -/

/-- `PBKDF2_ITERATIONS` constant of auth.ts. -/
def PBKDF2_ITERATIONS : Nat := 310000

/-- `hashPassword` with the configured iteration count made explicit (in
the source it is the module constant `PBKDF2_ITERATIONS`; a
configuration change is a change of that constant).  The random salt is
an explicit argument (hex form).  Produces
`$pbkdf2-sha256$<iterations>$<salt-hex>$<hash-hex>`. -/
def hashPasswordWith (C : Crypto) (iterations : Nat) (saltHex password : String) : String :=
  "$pbkdf2-sha256$" ++ String.mk (natDecimalDigits iterations) ++ "$" ++ saltHex ++ "$"
    ++ C.pbkdf2 password saltHex iterations

/-- `hashPassword` (auth.ts) at the current configuration. -/
def hashPassword (C : Crypto) (saltHex password : String) : String :=
  hashPasswordWith C PBKDF2_ITERATIONS saltHex password

/-- `verifyPassword` (auth.ts), instrumented: the second component is a
ghost trace recording each `deriveBits` (PBKDF2) invocation as
`(password, saltHex, iterations)`; the Boolean first component is the
verification result.  Control flow follows the source: the `$sha256$`
dev-seed branch (node only, no PBKDF2 call), then
`stored.split('$').filter(Boolean)`, the shape/tag check, `parseInt` of
the iteration field with the `>= 100_000` floor, then derivation and
timing-safe comparison of the hex outputs. -/
def verifyPasswordCalls (C : Crypto) (password stored : String) :
    Bool × List (String × String × Nat) :=
  if "$sha256$".data.isPrefixOf stored.data then
    (if C.hasProcess then
       timingSafeEqual ("$sha256$" ++ C.sha256hex (password ++ "seed-salt")) stored
     else false, [])
  else
    match (splitOnChar '$' stored.data).filter (fun p => !p.isEmpty) with
    | [p0, p1, p2, p3] =>
      if p0 ≠ "pbkdf2-sha256".data then (false, [])
      else
        match jsParseIntChars p1 with
        | none => (false, [])
        | some iterations =>
          if iterations < 100000 then (false, [])
          else
            (timingSafeEqual (C.pbkdf2 password (String.mk p2) iterations) (String.mk p3),
             [(password, String.mk p2, iterations)])
    | _ => (false, [])

/-- `verifyPassword` (auth.ts): the Boolean result of the instrumented
version. -/
def verifyPassword (C : Crypto) (password stored : String) : Bool :=
  (verifyPasswordCalls C password stored).1

/-- `verifyResetToken` (auth.ts): hash the presented raw token and
compare against the stored hash, timing-safely. -/
def verifyResetToken (C : Crypto) (rawToken storedHash : String) : Bool :=
  timingSafeEqual (C.hashToken rawToken) storedHash

/-- Sixty-four `'0'` characters: `'00'.repeat(32)` in the login handler. -/
def zeros64 : String :=
  String.mk (List.replicate 64 '0')

/-- The dummy hash of routes/auth.ts `POST /auth/login`:
`'$pbkdf2-sha256$310000$' + '00'.repeat(32) + '$' + '00'.repeat(32)`. -/
def dummyHash : String :=
  "$pbkdf2-sha256$310000$" ++ zeros64 ++ "$" ++ zeros64

/-! ## Sessions (auth.ts) -/

/-- A row of the `sessions` table.  `expiresAt` is stored in the source
as an ISO timestamp string; ISO comparison of valid timestamps agrees
with numeric comparison of the epoch milliseconds, so it is embedded as
the integer timestamp. -/
structure Session where
  id : String
  userId : String
  tokenHash : String
  expiresAt : Int
deriving Repr, DecidableEq

/-- `SESSION_TTL_DAYS * 864e5`: the session TTL in milliseconds. -/
def SESSION_TTL_MS : Int := 14 * 86400000

/-- Result of `validateSession` (auth.ts): the Boolean it returns, the
`sessions` table afterwards, and whether `deleteCookie` was called.
Tenant-context injection (`injectTenantContext`) reads other tables and
is outside the modelled state. -/
structure SessionCheck where
  authed : Bool
  sessions : List Session
  cookieCleared : Bool
deriving Repr, DecidableEq

/-- `validateSession` (auth.ts): read the cookie, hash it, look the
session up by token hash; absent record clears the cookie; expired
record is deleted (by id) and the cookie cleared; otherwise the expiry
is extended to `now + TTL` (rolling session). -/
def validateSession (C : Crypto) (sdb : List Session) (cookie : Option String)
    (now : Int) : SessionCheck :=
  match cookie with
  | none => ⟨false, sdb, false⟩
  | some rawToken =>
    let tokenHash := C.hashToken rawToken
    match sdb.find? (fun s => s.tokenHash == tokenHash) with
    | none => ⟨false, sdb, true⟩
    | some session =>
      if session.expiresAt < now then
        ⟨false, sdb.filter (fun s => s.id != session.id), true⟩
      else
        ⟨true,
         sdb.map (fun s =>
           if s.id == session.id then { s with expiresAt := now + SESSION_TTL_MS } else s),
         false⟩

/-- `destroySession` (auth.ts): delete every session row whose
`tokenHash` equals the hash of the presented cookie token (no cookie:
no delete).  The cookie itself is always cleared afterwards; only the
table state matters here. -/
def destroySession (C : Crypto) (sdb : List Session) (cookie : Option String) :
    List Session :=
  match cookie with
  | none => sdb
  | some rawToken => sdb.filter (fun s => s.tokenHash != C.hashToken rawToken)

/-! ## Users and the auth routes (routes/auth.ts) -/

/-- A row of the `users` table, restricted to the fields the modelled
routes read or write.  Expiry timestamps are epoch milliseconds (see
`Session.expiresAt`). -/
structure User where
  id : String
  email : String
  passwordHash : String
  emailVerified : Bool
  emailVerifyToken : Option String
  emailVerifyExpiresAt : Option Int
  resetToken : Option String
  resetTokenExpiresAt : Option Int
deriving Repr, DecidableEq

/-- The distinct responses of `GET /auth/verify-email`; each constructor
is one `return c.json(...)` of the handler (responses with identical
status and body share a constructor). -/
inductive VerifyEmailResp where
  | tokenRequired
  | invalidLinkFormat
  | invalidLink
  | alreadyVerified
  | noActiveRequest
  | linkExpired
  | verified
deriving Repr, DecidableEq

/-- HTTP status of each `GET /auth/verify-email` response. -/
def vStatus : VerifyEmailResp → Nat
  | .alreadyVerified => 200
  | .verified => 200
  | _ => 400

/-- `GET /auth/verify-email?token=userId.rawSecret` (routes/auth.ts):
parse the token at its first dot, look the user up by id, short-circuit
when already verified, check the dedicated verify slot and its expiry,
compare the secret hash timing-safely, and on success set
`emailVerified` and clear the slot.  The `users` table is the modelled
state. -/
def verifyEmailRoute (C : Crypto) (udb : List User) (now : Int) (token : String) :
    VerifyEmailResp × List User :=
  if token = "" then (.tokenRequired, udb)
  else
    match splitAtFirstChar '.' token.data with
    | none => (.invalidLinkFormat, udb)
    | some (uidChars, secretChars) =>
      let userId := String.mk uidChars
      let rawSecret := String.mk secretChars
      match udb.find? (fun u => u.id == userId) with
      | none => (.invalidLink, udb)
      | some user =>
        if user.emailVerified then (.alreadyVerified, udb)
        else
          match user.emailVerifyToken, user.emailVerifyExpiresAt with
          | some storedHash, some exp =>
            if exp < now then (.linkExpired, udb)
            else if verifyResetToken C rawSecret storedHash then
              (.verified,
               udb.map (fun u =>
                 if u.id == userId then
                   { u with emailVerified := true, emailVerifyToken := none,
                            emailVerifyExpiresAt := none }
                 else u))
            else (.invalidLink, udb)
          | _, _ => (.noActiveRequest, udb)

/-- The distinct responses of `POST /auth/reset`; the handler returns
the same 400 body for a missing user, an empty slot and a bad secret
(`invalidOrExpired`). -/
inductive ResetResp where
  | invalidInput
  | invalidLinkFormat
  | invalidOrExpired
  | linkExpired
  | resetOk
deriving Repr, DecidableEq

/-- HTTP status of each `POST /auth/reset` response. -/
def rStatus : ResetResp → Nat
  | .resetOk => 200
  | _ => 400

/-- `POST /auth/reset` (routes/auth.ts), after schema validation: parse
`userId.rawSecret`, look the user up by id, require a non-null unexpired
reset slot, compare the secret hash timing-safely; on success store the
new password hash (fresh salt `saltHex`), clear the reset slot, and
delete every session of the user.  State: `users` and `sessions`. -/
def resetRoute (C : Crypto) (udb : List User) (sdb : List Session) (now : Int)
    (saltHex token password : String) : ResetResp × List User × List Session :=
  match splitAtFirstChar '.' token.data with
  | none => (.invalidLinkFormat, udb, sdb)
  | some (uidChars, secretChars) =>
    let userId := String.mk uidChars
    let rawSecret := String.mk secretChars
    match udb.find? (fun u => u.id == userId) with
    | none => (.invalidOrExpired, udb, sdb)
    | some user =>
      match user.resetToken, user.resetTokenExpiresAt with
      | some storedHash, some exp =>
        if exp < now then (.linkExpired, udb, sdb)
        else if verifyResetToken C rawSecret storedHash then
          (.resetOk,
           udb.map (fun u =>
             if u.id == userId then
               { u with passwordHash := hashPassword C saltHex password,
                        resetToken := none, resetTokenExpiresAt := none }
             else u),
           sdb.filter (fun s => s.userId != userId))
        else (.invalidOrExpired, udb, sdb)
      | _, _ => (.invalidOrExpired, udb, sdb)

/-- The distinct responses of `POST /auth/login` (the 401 for an unknown
email and the 401 for a wrong password are one `return` in the source). -/
inductive LoginResp where
  | validationFailed
  | invalidCredentials
  | loginOk (userId : String)
deriving Repr, DecidableEq

/-- HTTP status of each `POST /auth/login` response. -/
def loginStatus : LoginResp → Nat
  | .validationFailed => 400
  | .invalidCredentials => 401
  | .loginOk _ => 200

/-- `POST /auth/login` (routes/auth.ts), after schema validation: look
the user up by lower-cased email; always run `verifyPassword` — against
the stored hash when the user exists, against `dummyHash` (discarding
the result) when not; 401 unless both user and password check out.  The
second component is the ghost PBKDF2-call trace of the run (see
`verifyPasswordCalls`); session creation and tenant lookup on the
success path are outside the modelled state. -/
def login (C : Crypto) (udb : List User) (email password : String) :
    LoginResp × List (String × String × Nat) :=
  match udb.find? (fun u => u.email == jsToLower email) with
  | some user =>
    let r := verifyPasswordCalls C password user.passwordHash
    if r.1 then (.loginOk user.id, r.2) else (.invalidCredentials, r.2)
  | none =>
    let r := verifyPasswordCalls C password dummyHash
    (.invalidCredentials, r.2)

/-! ## Rate limiter (rateLimit.ts) -/

/-- One value of the `RateLimiterDO` counter map: `{ count, windowStart }`. -/
structure DOEntry where
  count : Int
  windowStart : Int
deriving Repr, DecidableEq

/-- The body of a `RateLimiterDO.fetch` JSON response; `none` marks a
field absent from that response object. -/
structure DOResp where
  allowed : Bool
  remaining : Option Int
  retryAfterMs : Option Int
  resetMs : Option Int
deriving Repr, DecidableEq

/-- `Map.prototype.get` on the association-list embedding of
`this.counts`. -/
def mapGet (m : List (String × DOEntry)) (k : String) : Option DOEntry :=
  (m.find? (fun p => p.1 == k)).map (fun p => p.2)

/-- `Map.prototype.set` (overwrite in place, insert when absent). -/
def mapSet (m : List (String × DOEntry)) (k : String) (v : DOEntry) :
    List (String × DOEntry) :=
  if m.any (fun p => p.1 == k) then
    m.map (fun p => if p.1 == k then (k, v) else p)
  else m ++ [(k, v)]

/-- `RateLimiterDO.fetch` (rateLimit.ts): fixed window over the in-DO
map.  Fresh window (no entry, or `now - windowStart >= windowMs`): reset
to count 1 and admit with `remaining = max - 1`.  In-window at
`count >= max`: reject with `retryAfterMs = windowMs - (now -
windowStart)`.  Otherwise increment (`entry.count++` mutates the map
entry) and admit. -/
def doFetch (counts : List (String × DOEntry)) (key : String)
    (now windowMs max : Int) : List (String × DOEntry) × DOResp :=
  match mapGet counts key with
  | none =>
    (mapSet counts key ⟨1, now⟩, ⟨true, some (max - 1), none, some windowMs⟩)
  | some entry =>
    if windowMs ≤ now - entry.windowStart then
      (mapSet counts key ⟨1, now⟩, ⟨true, some (max - 1), none, some windowMs⟩)
    else if max ≤ entry.count then
      (counts, ⟨false, some 0, some (windowMs - (now - entry.windowStart)), none⟩)
    else
      (mapSet counts key ⟨entry.count + 1, entry.windowStart⟩,
       ⟨true, some (max - (entry.count + 1)), none,
        some (windowMs - (now - entry.windowStart))⟩)

/-- The per-scope configuration fields `checkDO`/`checkKV` read. -/
structure RateLimitOptions where
  windowMs : Int
  max : Int
deriving Repr, DecidableEq

/-- What `checkDO`/`checkKV` return to the middleware:
`{ allowed, remaining?, retryAfterMs? }`. -/
structure LimitDecision where
  allowed : Bool
  remaining : Option Int
  retryAfterMs : Option Int
deriving Repr, DecidableEq

/-- `checkKV` (rateLimit.ts).  External effects as inputs: `kvBound` is
whether `KV_RATE_LIMIT` is bound, `getRes` the outcome of `kv.get`
(`none` = the call threw; `some none` = no entry; `some (some l)` = the
stored timestamp list, with an unparseable entry folded into `some []`
exactly as the inner `catch { timestamps = [] }` does), `putOk` whether
`kv.put` succeeds.  Returns the decision and the timestamp list written
on a successful put (`none` = nothing persisted). -/
def checkKV (kvBound : Bool) (getRes : Option (Option (List Int))) (putOk : Bool)
    (now : Int) (opts : RateLimitOptions) : LimitDecision × Option (List Int) :=
  if !kvBound then (⟨true, none, none⟩, none)
  else
    match getRes with
    | none => (⟨true, none, none⟩, none)
    | some raw =>
      let timestamps := raw.getD []
      let windowStart := now - opts.windowMs
      let ts := timestamps.filter (fun t => windowStart < t)
      if opts.max ≤ (ts.length : Int) then
        -- `timestamps[0]` after the filter; nonempty whenever `1 ≤ max`
        let oldestInWindow := ts.head?.getD 0
        (⟨false, none, some (max (oldestInWindow + opts.windowMs - now) 1000)⟩, none)
      else
        let ts2 := ts ++ [now]
        if putOk then (⟨true, some (opts.max - (ts2.length : Int)), none⟩, some ts2)
        else (⟨true, none, none⟩, none)

/-- `checkDO` (rateLimit.ts).  `doBound` is whether `RATE_LIMITER_DO` is
bound — when it is not, the function returns `checkKV` on the same
request; `doRes` is the parsed DO response, `none` when the DO round
trip threw, in which case the `catch` admits the request directly
(`{ allowed: true }`). -/
def checkDO (doBound : Bool) (doRes : Option LimitDecision) (kvBound : Bool)
    (getRes : Option (Option (List Int))) (putOk : Bool) (now : Int)
    (opts : RateLimitOptions) : LimitDecision × Option (List Int) :=
  if !doBound then checkKV kvBound getRes putOk now opts
  else
    match doRes with
    | some r => (r, none)
    | none => (⟨true, none, none⟩, none)

/-! ## Concrete fixtures used by witnesses and counterexamples -/

/-- A concrete `Crypto` instance: injective-in-the-password derivation
and an injective token hash, with outputs free of `'$'`. -/
def cryptoA : Crypto :=
  ⟨fun p _ _ => "k" ++ p, fun s => "h" ++ s, fun _ => "x", false⟩

/-- A user holding a live email-verification token (hash of `"sec"`). -/
def userV : User :=
  ⟨"u1", "a@b.c", "ph", false, some (cryptoA.hashToken "sec"), some 100, none, none⟩

/-- A user holding a live password-reset token (hash of `"rs"`). -/
def userR : User :=
  ⟨"u2", "c@d.e", "ph2", true, none, none, some (cryptoA.hashToken "rs"), some 100⟩

/-- A user with a PBKDF2-format stored password hash (password `"pa"`). -/
def userL : User :=
  ⟨"u3", "x@y.z", hashPasswordWith cryptoA 100000 "s" "pa", true, none, none, none, none⟩

/-- A session for user `"u1"` under token `"tok"`, expiring at 100. -/
def sessA : Session :=
  ⟨"s1", "u1", cryptoA.hashToken "tok", 100⟩

/-- A second session for user `"u1"` under token `"tok2"`. -/
def sessB : Session :=
  ⟨"s2", "u1", cryptoA.hashToken "tok2", 500⟩

/-- A session belonging to user `"u2"`. -/
def sessU2 : Session :=
  ⟨"s3", "u2", cryptoA.hashToken "t3", 500⟩

/-! ## Infrastructure lemmas -/

theorem nat_or_eq_zero {a b : Nat} : a ||| b = 0 ↔ a = 0 ∧ b = 0 := by
  constructor
  · intro h
    have hb : ∀ i, (a ||| b).testBit i = false := fun i => by
      rw [h]; exact Nat.zero_testBit i
    constructor <;> refine Nat.eq_of_testBit_eq fun i => ?_
    · have h1 := hb i
      rw [Nat.testBit_lor] at h1
      rw [(Bool.or_eq_false_iff.mp h1).1, Nat.zero_testBit]
    · have h1 := hb i
      rw [Nat.testBit_lor] at h1
      rw [(Bool.or_eq_false_iff.mp h1).2, Nat.zero_testBit]
  · rintro ⟨rfl, rfl⟩; rfl

theorem foldl_or_eq_zero {l : List Nat} {acc : Nat} :
    l.foldl (fun a d => a ||| d) acc = 0 ↔ acc = 0 ∧ ∀ x ∈ l, x = 0 := by
  induction l generalizing acc with
  | nil => simp
  | cons c t ih =>
    simp only [List.foldl_cons, ih, nat_or_eq_zero, List.forall_mem_cons]
    tauto

theorem char_toNat_inj {c d : Char} (h : c.toNat = d.toNat) : c = d :=
  Char.eq_of_val_eq (UInt32.toNat.inj h)

theorem zip_xor_all_zero {l1 l2 : List Char} (hlen : l1.length = l2.length)
    (h : ∀ x ∈ List.zipWith (fun x y => x.toNat ^^^ y.toNat) l1 l2, x = 0) :
    l1 = l2 := by
  induction l1 generalizing l2 with
  | nil => cases l2 with
    | nil => rfl
    | cons d t2 => simp at hlen
  | cons c t ih =>
    cases l2 with
    | nil => simp at hlen
    | cons d t2 =>
      have hcd : c = d := by
        have h0 := h (c.toNat ^^^ d.toNat) (by simp [List.zipWith_cons_cons])
        exact char_toNat_inj (Nat.xor_eq_zero.mp h0)
      have ht : t = t2 := by
        refine ih (by simpa using hlen) fun x hx => h x ?_
        simpa [List.zipWith_cons_cons] using Or.inr hx
      rw [hcd, ht]

theorem string_eq_of_data_eq {a b : String} (h : a.data = b.data) : a = b := by
  cases a with
  | mk d1 =>
    cases b with
    | mk d2 => exact congrArg String.mk h

theorem str_eq_empty_iff {s : String} : s = "" ↔ s.data = [] := by
  constructor
  · intro h; rw [h]
  · intro h
    cases s with
    | mk d => subst h; rfl

theorem timingSafeEqual_eq_true_iff {a b : String} :
    timingSafeEqual a b = true ↔ a = b := by
  unfold timingSafeEqual
  by_cases hlen : a.length = b.length
  · rw [hlen]
    simp only [bne_self_eq_false, Bool.false_eq_true, if_false, beq_iff_eq]
    constructor
    · intro h
      refine string_eq_of_data_eq (zip_xor_all_zero ?_ (foldl_or_eq_zero.mp h).2)
      exact hlen
    · rintro rfl
      refine foldl_or_eq_zero.mpr ⟨rfl, ?_⟩
      have : ∀ t : List Char, ∀ x ∈ List.zipWith (fun x y => x.toNat ^^^ y.toNat) t t, x = 0 := by
        intro t
        induction t with
        | nil => simp
        | cons c r ih =>
          intro x hx
          rcases (List.mem_cons).mp hx with h1 | h1
          · rw [h1]; exact Nat.xor_self _
          · exact ih x h1
      exact this a.data
  · have hne : (a.length != b.length) = true := by simpa [bne_iff_ne] using hlen
    rw [hne]
    simp only [if_true, Bool.false_eq_true, false_iff]
    intro h
    exact hlen (h ▸ rfl)

theorem timingSafeEqual_self (a : String) : timingSafeEqual a a = true :=
  timingSafeEqual_eq_true_iff.mpr rfl

theorem timingSafeEqual_eq_false {a b : String} (h : a ≠ b) :
    timingSafeEqual a b = false := by
  cases he : timingSafeEqual a b
  · rfl
  · exact absurd (timingSafeEqual_eq_true_iff.mp he) h

theorem splitOnChar_cons (sep c : Char) (rest : List Char) :
    splitOnChar sep (c :: rest) =
      if c = sep then [] :: splitOnChar sep rest
      else
        match splitOnChar sep rest with
        | [] => [[c]]
        | h :: t => (c :: h) :: t := rfl

theorem splitOnChar_ne_nil (sep : Char) (l : List Char) : splitOnChar sep l ≠ [] := by
  induction l with
  | nil => simp [splitOnChar]
  | cons c rest ih =>
    rw [splitOnChar_cons]
    split
    · simp
    · cases h : splitOnChar sep rest <;> simp

theorem splitOnChar_of_not_mem {sep : Char} {l : List Char} (h : sep ∉ l) :
    splitOnChar sep l = [l] := by
  induction l with
  | nil => rfl
  | cons c rest ih =>
    have hc : ¬ c = sep := fun e => h (e ▸ List.mem_cons_self c rest)
    have hr : sep ∉ rest := fun e => h (List.mem_cons_of_mem _ e)
    rw [splitOnChar_cons, if_neg hc, ih hr]

theorem splitOnChar_append {sep : Char} {a : List Char} (b : List Char) (h : sep ∉ a) :
    splitOnChar sep (a ++ sep :: b) = a :: splitOnChar sep b := by
  induction a with
  | nil => rw [List.nil_append, splitOnChar_cons, if_pos rfl]
  | cons c rest ih =>
    have hc : ¬ c = sep := fun e => h (e ▸ List.mem_cons_self c rest)
    have hr : sep ∉ rest := fun e => h (List.mem_cons_of_mem _ e)
    rw [List.cons_append, splitOnChar_cons, if_neg hc, ih hr]

theorem splitAtFirstChar_cons (sep c : Char) (rest : List Char) :
    splitAtFirstChar sep (c :: rest) =
      if c = sep then some ([], rest)
      else
        match splitAtFirstChar sep rest with
        | none => none
        | some (a, b) => some (c :: a, b) := rfl

theorem splitAtFirstChar_append {sep : Char} {a : List Char} (b : List Char) (h : sep ∉ a) :
    splitAtFirstChar sep (a ++ sep :: b) = some (a, b) := by
  induction a with
  | nil => rw [List.nil_append, splitAtFirstChar_cons, if_pos rfl]
  | cons c rest ih =>
    have hc : ¬ c = sep := fun e => h (e ▸ List.mem_cons_self c rest)
    have hr : sep ∉ rest := fun e => h (List.mem_cons_of_mem _ e)
    rw [List.cons_append, splitAtFirstChar_cons, if_neg hc, ih hr]

theorem digitChar_isDigit {d : Nat} (h : d < 10) : (digitChar d).isDigit = true := by
  interval_cases d <;> rfl

theorem digitChar_toNat {d : Nat} (h : d < 10) : (digitChar d).toNat = 48 + d := by
  interval_cases d <;> rfl

theorem ne_dollar_of_isDigit {c : Char} (h : c.isDigit = true) : c ≠ '$' := by
  intro e
  subst e
  simp [Char.isDigit] at h

theorem go_ne_nil (fuel : Nat) : ∀ n, n < fuel → natDecimalDigitsGo fuel n ≠ [] := by
  induction fuel with
  | zero => omega
  | succ fuel ih =>
    intro n hn
    rw [natDecimalDigitsGo]
    by_cases h10 : n < 10
    · rw [if_pos h10]
      simp
    · rw [if_neg h10]
      simp

theorem go_all_digits (fuel : Nat) :
    ∀ n, n < fuel → ∀ c ∈ natDecimalDigitsGo fuel n, c.isDigit = true := by
  induction fuel with
  | zero => omega
  | succ fuel ih =>
    intro n hn
    rw [natDecimalDigitsGo]
    by_cases h10 : n < 10
    · rw [if_pos h10]
      intro c hc
      rw [List.mem_singleton.mp hc]
      exact digitChar_isDigit h10
    · rw [if_neg h10]
      intro c hc
      have hdiv : n / 10 < fuel := by
        have := Nat.div_lt_self (show 0 < n by omega) (show 1 < 10 by omega)
        omega
      rcases List.mem_append.mp hc with h1 | h1
      · exact ih (n / 10) hdiv c h1
      · rw [List.mem_singleton.mp h1]
        exact digitChar_isDigit (Nat.mod_lt _ (by omega))

theorem go_foldl (fuel : Nat) :
    ∀ n, n < fuel →
      (natDecimalDigitsGo fuel n).foldl (fun acc c => 10 * acc + (c.toNat - 48)) 0 = n := by
  induction fuel with
  | zero => omega
  | succ fuel ih =>
    intro n hn
    rw [natDecimalDigitsGo]
    by_cases h10 : n < 10
    · rw [if_pos h10]
      simp [digitChar_toNat h10]
    · rw [if_neg h10]
      have hdiv : n / 10 < fuel := by
        have := Nat.div_lt_self (show 0 < n by omega) (show 1 < 10 by omega)
        omega
      rw [List.foldl_append, ih (n / 10) hdiv]
      have hm : (10 : Nat) * (n / 10) + ((digitChar (n % 10)).toNat - 48) = n := by
        rw [digitChar_toNat (Nat.mod_lt _ (by omega))]
        omega
      simpa using hm

theorem ndd_ne_nil (n : Nat) : natDecimalDigits n ≠ [] :=
  go_ne_nil (n + 1) n (by omega)

theorem ndd_all_digits (n : Nat) : ∀ c ∈ natDecimalDigits n, c.isDigit = true :=
  go_all_digits (n + 1) n (by omega)

theorem ndd_not_mem_dollar (n : Nat) : '$' ∉ natDecimalDigits n :=
  fun h => ne_dollar_of_isDigit (ndd_all_digits n '$' h) rfl

theorem ndd_foldl (n : Nat) :
    (natDecimalDigits n).foldl (fun acc c => 10 * acc + (c.toNat - 48)) 0 = n :=
  go_foldl (n + 1) n (by omega)

theorem jsParseIntChars_ndd (n : Nat) : jsParseIntChars (natDecimalDigits n) = some n := by
  unfold jsParseIntChars
  have h1 : (natDecimalDigits n).takeWhile (fun c => c.isDigit) = natDecimalDigits n :=
    List.takeWhile_eq_self_iff.mpr (ndd_all_digits n)
  rw [h1]
  cases h2 : natDecimalDigits n with
  | nil => exact absurd h2 (ndd_ne_nil n)
  | cons d ds =>
    have h3 := ndd_foldl n
    rw [h2] at h3
    simp [h3]

theorem hashFormat_data (a b c : String) :
    ("$pbkdf2-sha256$" ++ a ++ "$" ++ b ++ "$" ++ c).data
      = '$' :: ("pbkdf2-sha256".data
          ++ ('$' :: (a.data ++ ('$' :: (b.data ++ ('$' :: c.data)))))) := by
  have e1 : ("$pbkdf2-sha256$" : String).data = '$' :: ("pbkdf2-sha256".data ++ ['$']) := rfl
  have e2 : ("$" : String).data = ['$'] := rfl
  simp [String.data_append, e1, e2]

theorem filter_nonempty_chunks (p1 p2 p3 p4 : List Char)
    (h1 : p1 ≠ []) (h2 : p2 ≠ []) (h3 : p3 ≠ []) (h4 : p4 ≠ []) :
    ([[], p1, p2, p3, p4] : List (List Char)).filter (fun p => !p.isEmpty)
      = [p1, p2, p3, p4] := by
  have e : ∀ q : List Char, q ≠ [] → (!q.isEmpty) = true := by
    intro q hq
    simp [List.isEmpty_iff, hq]
  simp [List.filter, e p1 h1, e p2 h2, e p3 h3, e p4 h4]

/-- Computation of `verifyPasswordCalls` on a well-formed stored string
`$pbkdf2-sha256$<decimal N>$<salt>$<hash>` whose salt and hash parts are
nonempty and free of the `'$'` delimiter (true of every hex string). -/
theorem verifyPasswordCalls_format (C : Crypto) (pw : String) (N : Nat)
    (salt hashHex : String) (hs1 : salt ≠ "") (hs2 : '$' ∉ salt.data)
    (hh1 : hashHex ≠ "") (hh2 : '$' ∉ hashHex.data) :
    verifyPasswordCalls C pw
      ("$pbkdf2-sha256$" ++ String.mk (natDecimalDigits N) ++ "$" ++ salt ++ "$" ++ hashHex)
      = if N < 100000 then (false, [])
        else (timingSafeEqual (C.pbkdf2 pw salt N) hashHex, [(pw, salt, N)]) := by
  have hdata := hashFormat_data (String.mk (natDecimalDigits N)) salt hashHex
  have hpre : "$sha256$".data.isPrefixOf
      ("$pbkdf2-sha256$" ++ String.mk (natDecimalDigits N) ++ "$" ++ salt ++ "$" ++ hashHex).data
      = false := by
    rw [hdata]; rfl
  have hsplit : splitOnChar '$'
      ("$pbkdf2-sha256$" ++ String.mk (natDecimalDigits N) ++ "$" ++ salt ++ "$" ++ hashHex).data
      = [[], "pbkdf2-sha256".data, natDecimalDigits N, salt.data, hashHex.data] := by
    rw [hdata]
    rw [show ('$' :: ("pbkdf2-sha256".data
          ++ ('$' :: (natDecimalDigits N ++ ('$' :: (salt.data ++ ('$' :: hashHex.data)))))))
        = [] ++ '$' :: ("pbkdf2-sha256".data
          ++ ('$' :: (natDecimalDigits N ++ ('$' :: (salt.data ++ ('$' :: hashHex.data))))))
      from rfl]
    rw [splitOnChar_append _ (by simp)]
    rw [splitOnChar_append _ (by decide)]
    rw [splitOnChar_append _ (ndd_not_mem_dollar N)]
    rw [splitOnChar_append _ hs2]
    rw [splitOnChar_of_not_mem hh2]
  unfold verifyPasswordCalls
  rw [hpre]
  rw [hsplit]
  rw [filter_nonempty_chunks _ _ _ _ (by decide) (ndd_ne_nil N)
    (fun e => hs1 (str_eq_empty_iff.mpr e)) (fun e => hh1 (str_eq_empty_iff.mpr e))]
  simp only [Bool.false_eq_true, if_false]
  rw [if_neg (by simp)]
  rw [jsParseIntChars_ndd N]

/-- `verifyPasswordCalls` against the login handler's `dummyHash` always
reaches the PBKDF2 derivation (the dummy hash is shaped exactly like a
real stored hash with 310000 iterations). -/
theorem verifyPasswordCalls_dummy (C : Crypto) (pw : String) :
    verifyPasswordCalls C pw dummyHash
      = (timingSafeEqual (C.pbkdf2 pw zeros64 310000) zeros64, [(pw, zeros64, 310000)]) := rfl

/-- `find?` by id over a pointwise id-preserving update of the matching
rows: the found row is the updated one. -/
theorem find_update_user (udb : List User) (uid : String) (g : User → User)
    (hg : ∀ u, (g u).id = u.id) :
    (udb.map (fun u => if u.id == uid then g u else u)).find? (fun u => u.id == uid)
      = (udb.find? (fun u => u.id == uid)).map g := by
  induction udb with
  | nil => rfl
  | cons u rest ih =>
    rw [List.map_cons, List.find?_cons, List.find?_cons]
    by_cases h : u.id = uid
    · have hbeq : (u.id == uid) = true := beq_iff_eq.mpr h
      have hgid : ((g u).id == uid) = true := by rw [beq_iff_eq, hg u]; exact h
      rw [if_pos hbeq, hgid, hbeq]
      rfl
    · have hbeq : (u.id == uid) = false := by simpa [beq_iff_eq] using h
      rw [if_neg (by simp [hbeq]), hbeq]
      exact ih

/-! ## Route computation lemmas -/

theorem token_data (uid secret : String) :
    (uid ++ "." ++ secret).data = uid.data ++ '.' :: secret.data := by
  have e2 : ("." : String).data = ['.'] := rfl
  simp [String.data_append, e2]

theorem token_ne_empty (uid secret : String) : ¬ (uid ++ "." ++ secret) = "" := by
  intro h
  have hd := str_eq_empty_iff.mp h
  rw [token_data] at hd
  rcases List.append_eq_nil.mp hd with ⟨h1, h2⟩
  simp at h2

theorem token_split (uid secret : String) (hdot : '.' ∉ uid.data) :
    splitAtFirstChar '.' (uid ++ "." ++ secret).data = some (uid.data, secret.data) := by
  rw [token_data]
  exact splitAtFirstChar_append _ hdot

/-- The success path of `POST /auth/reset` on a well-formed token whose
secret hashes to the stored reset-slot hash, before the slot expiry. -/
theorem resetRoute_success (C : Crypto) (udb : List User) (sdb : List Session)
    (uid secret pw salt : String) (u : User) (e : Int) (now : Int)
    (hfind : udb.find? (fun x => x.id == uid) = some u)
    (htok : u.resetToken = some (C.hashToken secret))
    (hexp : u.resetTokenExpiresAt = some e)
    (hne : ¬ e < now)
    (hdot : '.' ∉ uid.data) :
    resetRoute C udb sdb now salt (uid ++ "." ++ secret) pw
      = (.resetOk,
         udb.map (fun x =>
           if x.id == uid then
             { x with passwordHash := hashPassword C salt pw,
                      resetToken := none, resetTokenExpiresAt := none }
           else x),
         sdb.filter (fun s => s.userId != uid)) := by
  have hfind2 : udb.find? (fun x => x.id == String.mk uid.data) = some u := hfind
  have hv : verifyResetToken C (String.mk secret.data) (C.hashToken secret) = true :=
    timingSafeEqual_eq_true_iff.mpr rfl
  unfold resetRoute
  simp only [token_split uid secret hdot, hfind2, htok, hexp, hne, hv]
  simp only [Bool.false_eq_true, if_false, if_true]

/-- A reset attempt against a user whose reset slot is empty fails with
the generic invalid-or-expired response and leaves both tables intact. -/
theorem resetRoute_no_slot (C : Crypto) (udb : List User) (sdb : List Session)
    (uid secret pw salt : String) (u : User) (now : Int)
    (hfind : udb.find? (fun x => x.id == uid) = some u)
    (hslot : u.resetToken = none)
    (hdot : '.' ∉ uid.data) :
    resetRoute C udb sdb now salt (uid ++ "." ++ secret) pw
      = (.invalidOrExpired, udb, sdb) := by
  have hfind2 : udb.find? (fun x => x.id == String.mk uid.data) = some u := hfind
  unfold resetRoute
  simp only [token_split uid secret hdot, hfind2, hslot]

/-- The success path of `GET /auth/verify-email` on a live, unexpired
verification token. -/
theorem verifyEmailRoute_success (C : Crypto) (udb : List User)
    (uid secret : String) (u : User) (e : Int) (now : Int)
    (hfind : udb.find? (fun x => x.id == uid) = some u)
    (hver : u.emailVerified = false)
    (htok : u.emailVerifyToken = some (C.hashToken secret))
    (hexp : u.emailVerifyExpiresAt = some e)
    (hne : ¬ e < now)
    (hdot : '.' ∉ uid.data) :
    verifyEmailRoute C udb now (uid ++ "." ++ secret)
      = (.verified,
         udb.map (fun x =>
           if x.id == uid then
             { x with emailVerified := true, emailVerifyToken := none,
                      emailVerifyExpiresAt := none }
           else x)) := by
  have hfind2 : udb.find? (fun x => x.id == String.mk uid.data) = some u := hfind
  have hv : verifyResetToken C (String.mk secret.data) (C.hashToken secret) = true :=
    timingSafeEqual_eq_true_iff.mpr rfl
  unfold verifyEmailRoute
  rw [if_neg (token_ne_empty uid secret)]
  simp only [token_split uid secret hdot, hfind2, hver, htok, hexp, hne, hv]
  simp only [Bool.false_eq_true, if_false, if_true]

/-- `GET /auth/verify-email` for an already-verified user returns the
200 already-verified message and leaves the table unchanged, whatever
the supplied secret is. -/
theorem verifyEmailRoute_already (C : Crypto) (udb : List User)
    (uid secret : String) (u : User) (now : Int)
    (hfind : udb.find? (fun x => x.id == uid) = some u)
    (hver : u.emailVerified = true)
    (hdot : '.' ∉ uid.data) :
    verifyEmailRoute C udb now (uid ++ "." ++ secret) = (.alreadyVerified, udb) := by
  have hfind2 : udb.find? (fun x => x.id == String.mk uid.data) = some u := hfind
  unfold verifyEmailRoute
  rw [if_neg (token_ne_empty uid secret)]
  simp only [token_split uid secret hdot, hfind2, hver, if_true]

/-! ## Claim theorems -/

/-- C1: for every call to `RateLimiterDO.fetch` with `(key, windowMs,
max)`: if no entry exists for the key or `now - windowStart >= windowMs`
the entry is reset to count 1 with windowStart `now` and the request is
admitted with `remaining = max - 1`; otherwise if `count >= max` the
request is rejected with `retryAfterMs = windowMs - (now - windowStart)`;
otherwise the count is incremented and the request admitted with
`remaining = max - count` (the incremented count). -/
theorem do_fixed_window_spec (m : List (String × DOEntry)) (k : String)
    (now windowMs max : Int) :
    (mapGet m k = none →
      doFetch m k now windowMs max
        = (mapSet m k ⟨1, now⟩, ⟨true, some (max - 1), none, some windowMs⟩))
  ∧ (∀ e, mapGet m k = some e →
      (windowMs ≤ now - e.windowStart →
        doFetch m k now windowMs max
          = (mapSet m k ⟨1, now⟩, ⟨true, some (max - 1), none, some windowMs⟩))
    ∧ (now - e.windowStart < windowMs → max ≤ e.count →
        doFetch m k now windowMs max
          = (m, ⟨false, some 0, some (windowMs - (now - e.windowStart)), none⟩))
    ∧ (now - e.windowStart < windowMs → e.count < max →
        doFetch m k now windowMs max
          = (mapSet m k ⟨e.count + 1, e.windowStart⟩,
             ⟨true, some (max - (e.count + 1)), none,
              some (windowMs - (now - e.windowStart))⟩))) := by
  refine ⟨fun h => ?_, fun e he => ⟨fun h1 => ?_, fun h1 h2 => ?_, fun h1 h2 => ?_⟩⟩
  · unfold doFetch
    simp only [h]
  · unfold doFetch
    simp only [he]
    rw [if_pos h1]
  · unfold doFetch
    simp only [he]
    rw [if_neg (by omega), if_pos h2]
  · unfold doFetch
    simp only [he]
    rw [if_neg (by omega), if_neg (by omega)]

/-- Witness for C1: a key at count 2 of 3, 50ms into a 1000ms window, is
admitted with remaining 0 and the map entry incremented in place. -/
theorem do_fixed_window_spec_witness :
    (150 : Int) - 100 < 1000 ∧ (2 : Int) < 3
  ∧ doFetch [("k", ⟨2, 100⟩)] "k" 150 1000 3
      = ([("k", ⟨3, 100⟩)], ⟨true, some 0, none, some 950⟩) := by
  refine ⟨by decide, by decide, ?_⟩
  have h := ((do_fixed_window_spec [("k", ⟨2, 100⟩)] "k" 150 1000 3).2
    ⟨2, 100⟩ rfl).2.2 (by decide) (by decide)
  rw [h]
  decide

/-- C4 (amended): when the strongly-consistent backend's namespace is
not bound the decision is delegated to the KV backend; when the Durable
Object call itself fails the request is admitted fail-open immediately,
without consulting KV; a KV read failure also fails open. -/
theorem do_unbound_fallback (doRes : Option LimitDecision) (r : LimitDecision)
    (kvBound : Bool) (getRes : Option (Option (List Int))) (putOk : Bool)
    (now : Int) (opts : RateLimitOptions) :
    checkDO false doRes kvBound getRes putOk now opts
        = checkKV kvBound getRes putOk now opts
  ∧ checkDO true none kvBound getRes putOk now opts = (⟨true, none, none⟩, none)
  ∧ checkDO true (some r) kvBound getRes putOk now opts = (r, none)
  ∧ checkKV kvBound none putOk now opts = (⟨true, none, none⟩, none) := by
  refine ⟨rfl, rfl, rfl, ?_⟩
  unfold checkKV
  cases kvBound <;> rfl

/-- Counterexample for C4 as stated: the DO namespace is bound but the
DO call fails, while the KV backend holds a state that would reject the
same request.  The decision is `allowed = true` (fail-open) and is not
delegated to KV, which would have rejected. -/
theorem do_unbound_fallback_cex :
    checkDO true none true (some (some [4500])) true 5000 ⟨1000, 1⟩
      = (⟨true, none, none⟩, none)
  ∧ (checkKV true (some (some [4500])) true 5000 ⟨1000, 1⟩).1.allowed = false := by
  constructor
  · rfl
  · decide

/-- C8 (amended): a rejection carries `retryAfterMs > 0`; the
strongly-consistent backend bounds it by `windowMs`, while the KV
backend bounds it by `max windowMs 1000` (its 1000ms floor can exceed
`windowMs` when `windowMs < 1000`). -/
theorem retry_after_bounds :
    (∀ (m : List (String × DOEntry)) (k : String) (now windowMs maxv : Int)
      (e : DOEntry),
      mapGet m k = some e → e.windowStart ≤ now → now - e.windowStart < windowMs →
      maxv ≤ e.count →
      (doFetch m k now windowMs maxv).2.retryAfterMs
          = some (windowMs - (now - e.windowStart))
        ∧ 0 < windowMs - (now - e.windowStart)
        ∧ windowMs - (now - e.windowStart) ≤ windowMs)
  ∧ (∀ (l : List Int) (putOk : Bool) (now : Int) (opts : RateLimitOptions),
      1 ≤ opts.max → (∀ t ∈ l, t ≤ now) →
      (checkKV true (some (some l)) putOk now opts).1.allowed = false →
      ∃ r, (checkKV true (some (some l)) putOk now opts).1.retryAfterMs = some r
        ∧ 0 < r ∧ r ≤ max opts.windowMs 1000) := by
  constructor
  · intro m k now windowMs maxv e he h1 h2 h3
    have hd : doFetch m k now windowMs maxv
        = (m, ⟨false, some 0, some (windowMs - (now - e.windowStart)), none⟩) := by
      unfold doFetch
      simp only [he]
      rw [if_neg (by omega), if_pos h3]
    rw [hd]
    refine ⟨rfl, by omega, by omega⟩
  · intro l putOk now opts hmax hpast
    by_cases hc : opts.max ≤ ((l.filter (fun t => now - opts.windowMs < t)).length : Int)
    · intro _
      have hred : checkKV true (some (some l)) putOk now opts
          = (⟨false, none,
              some (max (((l.filter (fun t => now - opts.windowMs < t)).head?.getD 0)
                + opts.windowMs - now) 1000)⟩, none) := by
        unfold checkKV
        simp only [Bool.not_true, Bool.false_eq_true, if_false, Option.getD_some]
        rw [if_pos hc]
      rw [hred]
      have hne : l.filter (fun t => now - opts.windowMs < t) ≠ [] := by
        intro hnil
        rw [hnil] at hc
        simp at hc
        omega
      rcases hhead : l.filter (fun t => now - opts.windowMs < t) with _ | ⟨a, t⟩
      · exact absurd hhead hne
      · have hmem : a ∈ l.filter (fun t => now - opts.windowMs < t) := by
          rw [hhead]; exact List.mem_cons_self a t
        have hin := List.mem_filter.mp hmem
        have hlow : now - opts.windowMs < a := by simpa using hin.2
        have hhigh : a ≤ now := hpast a hin.1
        refine ⟨max (a + opts.windowMs - now) 1000, by rfl, ?_, ?_⟩
        · exact lt_of_lt_of_le (by omega) (le_max_right _ _)
        · exact max_le_max (by omega) le_rfl
    · intro habs
      exfalso
      have hred : (checkKV true (some (some l)) putOk now opts).1.allowed = true := by
        unfold checkKV
        simp only [Bool.not_true, Bool.false_eq_true, if_false, Option.getD_some]
        rw [if_neg hc]
        cases putOk <;> rfl
      rw [hred] at habs
      exact Bool.true_eq_false ▸ habs

/-- Counterexample for C8 as stated: with a 500ms window and max 1 on
the KV backend, the rejection carries `retryAfterMs = 1000 > windowMs`. -/
theorem retry_after_bounds_cex :
    (checkKV true (some (some [1000000])) true 1000000 ⟨500, 1⟩).1.allowed = false
  ∧ (checkKV true (some (some [1000000])) true 1000000 ⟨500, 1⟩).1.retryAfterMs
      = some 1000
  ∧ ¬ ((1000 : Int) ≤ 500) := by
  decide

/-- Witness for C8: a DO rejection 50ms into a 1000ms window carries
`retryAfterMs = 950 ∈ (0, 1000]`; a KV rejection under `{windowMs: 1000,
max: 1}` carries a retry delay in `(0, max 1000 1000]`. -/
theorem retry_after_bounds_witness :
    (doFetch [("k", ⟨5, 100⟩)] "k" 150 1000 3).2.retryAfterMs = some 950
  ∧ ∃ r, (checkKV true (some (some [100])) true 150 ⟨1000, 1⟩).1.retryAfterMs = some r
      ∧ 0 < r ∧ r ≤ max (1000 : Int) 1000 := by
  constructor
  · have h := (retry_after_bounds.1 [("k", ⟨5, 100⟩)] "k" 150 1000 3 ⟨5, 100⟩
      rfl (by decide) (by decide) (by decide)).1
    rw [h]
    decide
  · exact retry_after_bounds.2 [100] true 150 ⟨1000, 1⟩ (by decide)
      (by decide) (by decide)

/-- C2 (amended): for every password `p` and stored hash produced by
`hashPassword` under a past configuration with iteration count
`N ≥ 100000`, and every later configured count `M > N`, `verifyPassword`
still returns true: verification uses the iteration count parsed from
the stored string, not the current configuration (the conclusion does
not depend on `M`).  The side conditions say the salt and the derived
key render as nonempty `'$'`-free strings, true of every hex rendering. -/
theorem password_iteration_upgrade (C : Crypto) (N M : Nat) (p salt : String)
    (hNM : N < M) (hN : 100000 ≤ N)
    (hs1 : salt ≠ "") (hs2 : '$' ∉ salt.data)
    (hd1 : C.pbkdf2 p salt N ≠ "") (hd2 : '$' ∉ (C.pbkdf2 p salt N).data) :
    verifyPassword C p (hashPasswordWith C N salt p) = true := by
  unfold verifyPassword hashPasswordWith
  rw [verifyPasswordCalls_format C p N salt _ hs1 hs2 hd1 hd2, if_neg (by omega)]
  exact timingSafeEqual_self _

/-- Counterexample for C2 as stated: a hash produced under an iteration
count of 1000 (allowed by the claim, which quantifies over every past
configuration) is rejected by `verifyPassword`, whose parsed-iterations
floor `>= 100_000` fails — even though the current count 310000 > 1000. -/
theorem password_iteration_upgrade_cex :
    verifyPassword cryptoA "pw" (hashPasswordWith cryptoA 1000 "ab" "pw") = false
  ∧ (1000 : Nat) < PBKDF2_ITERATIONS := by
  constructor
  · unfold verifyPassword hashPasswordWith
    rw [verifyPasswordCalls_format cryptoA "pw" 1000 "ab" _ (by decide) (by decide)
      (by decide) (by decide)]
    rfl
  · decide

/-- Witness for C2: a hash stored at 100000 iterations verifies while
the configuration has moved to 310000. -/
theorem password_iteration_upgrade_witness :
    (100000 : Nat) < 310000
  ∧ verifyPassword cryptoA "a" (hashPasswordWith cryptoA 100000 "s" "a") = true := by
  exact ⟨by decide,
    password_iteration_upgrade cryptoA 100000 310000 "a" "s" (by decide) (by decide)
      (by decide) (by decide) (by decide) (by decide)⟩

/-- C5: `verifyPassword p (hashPassword p)` is true for every password
`p`, and `verifyPassword p2 (hashPassword p)` is false for every
`p2 ≠ p` up to collision-freeness of the key-derivation function (the
hypothesis that the derived keys differ). -/
theorem verify_hash_roundtrip (C : Crypto) (p p2 salt : String)
    (hs1 : salt ≠ "") (hs2 : '$' ∉ salt.data)
    (hd1 : C.pbkdf2 p salt PBKDF2_ITERATIONS ≠ "")
    (hd2 : '$' ∉ (C.pbkdf2 p salt PBKDF2_ITERATIONS).data)
    (hp : p2 ≠ p)
    (hcoll : C.pbkdf2 p2 salt PBKDF2_ITERATIONS ≠ C.pbkdf2 p salt PBKDF2_ITERATIONS) :
    verifyPassword C p (hashPassword C salt p) = true
  ∧ verifyPassword C p2 (hashPassword C salt p) = false := by
  have hge : ¬ (PBKDF2_ITERATIONS < 100000) := by
    unfold PBKDF2_ITERATIONS
    omega
  constructor
  · unfold verifyPassword hashPassword hashPasswordWith
    rw [verifyPasswordCalls_format C p PBKDF2_ITERATIONS salt _ hs1 hs2 hd1 hd2,
      if_neg hge]
    exact timingSafeEqual_self _
  · unfold verifyPassword hashPassword hashPasswordWith
    rw [verifyPasswordCalls_format C p2 PBKDF2_ITERATIONS salt _ hs1 hs2 hd1 hd2,
      if_neg hge]
    exact timingSafeEqual_eq_false hcoll

/-- Witness for C5 at a concrete derivation function injective in the
password. -/
theorem verify_hash_roundtrip_witness :
    ("b" : String) ≠ "a"
  ∧ verifyPassword cryptoA "a" (hashPassword cryptoA "s" "a") = true
  ∧ verifyPassword cryptoA "b" (hashPassword cryptoA "s" "a") = false := by
  have h := verify_hash_roundtrip cryptoA "a" "b" "s" (by decide) (by decide)
    (by decide) (by decide) (by decide) (by decide)
  exact ⟨by decide, h.1, h.2⟩

/-- C9: a login with a nonexistent email and a login with an existing
email but wrong password produce the identical generic rejection (same
constructor, hence same 401 status and body), and the PBKDF2 derivation
step runs in both cases (both ghost call traces are nonempty). -/
theorem login_enumeration_uniform (C : Crypto) (udb : List User)
    (e1 e2 pw1 pw2 : String) (u : User) (N : Nat) (salt pOrig : String)
    (h1 : udb.find? (fun x => x.email == jsToLower e1) = none)
    (h2 : udb.find? (fun x => x.email == jsToLower e2) = some u)
    (hhash : u.passwordHash = hashPasswordWith C N salt pOrig)
    (hN : 100000 ≤ N)
    (hs1 : salt ≠ "") (hs2 : '$' ∉ salt.data)
    (hd1 : C.pbkdf2 pOrig salt N ≠ "") (hd2 : '$' ∉ (C.pbkdf2 pOrig salt N).data)
    (hwrong : C.pbkdf2 pw2 salt N ≠ C.pbkdf2 pOrig salt N) :
    (login C udb e1 pw1).1 = .invalidCredentials
  ∧ (login C udb e2 pw2).1 = .invalidCredentials
  ∧ loginStatus (login C udb e1 pw1).1 = 401
  ∧ loginStatus (login C udb e1 pw1).1 = loginStatus (login C udb e2 pw2).1
  ∧ (login C udb e1 pw1).2 ≠ [] ∧ (login C udb e2 pw2).2 ≠ [] := by
  have r1 : login C udb e1 pw1 = (.invalidCredentials, [(pw1, zeros64, 310000)]) := by
    unfold login
    simp only [h1, verifyPasswordCalls_dummy]
  have hvpc : verifyPasswordCalls C pw2 u.passwordHash = (false, [(pw2, salt, N)]) := by
    rw [hhash]
    unfold hashPasswordWith
    rw [verifyPasswordCalls_format C pw2 N salt _ hs1 hs2 hd1 hd2,
      if_neg (by omega), timingSafeEqual_eq_false hwrong]
  have r2 : login C udb e2 pw2 = (.invalidCredentials, [(pw2, salt, N)]) := by
    unfold login
    simp [h2, hvpc]
  refine ⟨by rw [r1], by rw [r2], by rw [r1]; rfl, by rw [r1, r2],
    by rw [r1]; simp, by rw [r2]; simp⟩

/-- Witness for C9: a one-user store; unknown email vs known email with
a wrong password. -/
theorem login_enumeration_uniform_witness :
    (login cryptoA [userL] "no@no.no" "pw").1 = .invalidCredentials
  ∧ (login cryptoA [userL] "x@y.z" "bad").1 = .invalidCredentials
  ∧ (login cryptoA [userL] "no@no.no" "pw").2 ≠ []
  ∧ (login cryptoA [userL] "x@y.z" "bad").2 ≠ [] := by
  have h := login_enumeration_uniform cryptoA [userL] "no@no.no" "x@y.z" "pw" "bad"
    userL 100000 "s" "pa" (by decide) (by decide) rfl (by decide) (by decide)
    (by decide) (by decide) (by decide) (by decide)
  exact ⟨h.1, h.2.1, h.2.2.2.2.1, h.2.2.2.2.2⟩

/-- C6: for a request whose cookie hash matches a stored session record:
if the record's expiry is in the past, validation returns
unauthenticated, deletes that record, and clears the cookie; if the
expiry is in the future, validation succeeds and the expiry is extended
to `now + TTL` (rolling expiration). -/
theorem session_expiry_rolling (C : Crypto) (sdb : List Session) (raw : String)
    (s : Session) (now : Int)
    (hfind : sdb.find? (fun t => t.tokenHash == C.hashToken raw) = some s) :
    (s.expiresAt < now →
      validateSession C sdb (some raw) now
        = ⟨false, sdb.filter (fun t => t.id != s.id), true⟩)
  ∧ (now < s.expiresAt →
      validateSession C sdb (some raw) now
        = ⟨true,
           sdb.map (fun t =>
             if t.id == s.id then { t with expiresAt := now + SESSION_TTL_MS } else t),
           false⟩) := by
  constructor <;> intro h <;> unfold validateSession <;> simp only [hfind]
  · rw [if_pos h]
  · rw [if_neg (by omega)]

/-- Witness for C6: the same store checked after expiry (record deleted,
cookie cleared) and before expiry (expiry extended by the 14-day TTL). -/
theorem session_expiry_rolling_witness :
    ((100 : Int) < 150)
  ∧ validateSession cryptoA [sessA, sessB] (some "tok") 150 = ⟨false, [sessB], true⟩
  ∧ ((50 : Int) < 100)
  ∧ validateSession cryptoA [sessA, sessB] (some "tok") 50
      = ⟨true, [⟨"s1", "u1", cryptoA.hashToken "tok", 50 + SESSION_TTL_MS⟩, sessB],
         false⟩ := by
  have h1 := (session_expiry_rolling cryptoA [sessA, sessB] "tok" sessA 150 rfl).1
    (by decide)
  have h2 := (session_expiry_rolling cryptoA [sessA, sessB] "tok" sessA 50 rfl).2
    (by decide)
  refine ⟨by decide, ?_, by decide, ?_⟩
  · rw [h1]
    decide
  · rw [h2]
    decide

/-- C7: `destroySession` deletes exactly the session rows whose stored
hash matches the presented cookie token, leaving every other session
(of the same user or not) unchanged; a successful `POST /auth/reset`
deletes exactly the session rows belonging to that user. -/
theorem logout_frame_reset_all (C : Crypto) (sdb : List Session) (raw : String)
    (udb : List User) (sdb2 : List Session) (uid secret pw salt : String)
    (u : User) (e : Int) (now : Int)
    (hfind : udb.find? (fun x => x.id == uid) = some u)
    (htok : u.resetToken = some (C.hashToken secret))
    (hexp : u.resetTokenExpiresAt = some e)
    (hne : ¬ e < now)
    (hdot : '.' ∉ uid.data) :
    (∀ t, t ∈ destroySession C sdb (some raw)
        ↔ (t ∈ sdb ∧ t.tokenHash ≠ C.hashToken raw))
  ∧ (resetRoute C udb sdb2 now salt (uid ++ "." ++ secret) pw).1 = .resetOk
  ∧ (∀ t, t ∈ (resetRoute C udb sdb2 now salt (uid ++ "." ++ secret) pw).2.2
        ↔ (t ∈ sdb2 ∧ t.userId ≠ uid)) := by
  have hreset := resetRoute_success C udb sdb2 uid secret pw salt u e now
    hfind htok hexp hne hdot
  refine ⟨?_, by rw [hreset], ?_⟩
  · intro t
    unfold destroySession
    simp [List.mem_filter, bne_iff_ne]
  · intro t
    rw [hreset]
    simp [List.mem_filter, bne_iff_ne]

/-- Witness for C7: destroying one of two sessions of user `"u1"` keeps
the other; resetting user `"u2"` removes that user's session and keeps
the unrelated one. -/
theorem logout_frame_reset_all_witness :
    sessB ∈ destroySession cryptoA [sessA, sessB] (some "tok")
  ∧ sessA ∉ destroySession cryptoA [sessA, sessB] (some "tok")
  ∧ (resetRoute cryptoA [userR] [sessU2, sessB] 50 "s" ("u2" ++ "." ++ "rs") "np").1
      = .resetOk
  ∧ sessB ∈ (resetRoute cryptoA [userR] [sessU2, sessB] 50 "s" ("u2" ++ "." ++ "rs") "np").2.2
  ∧ sessU2 ∉ (resetRoute cryptoA [userR] [sessU2, sessB] 50 "s" ("u2" ++ "." ++ "rs") "np").2.2 := by
  have h := logout_frame_reset_all cryptoA [sessA, sessB] "tok" [userR] [sessU2, sessB]
    "u2" "rs" "np" "s" userR 100 50 rfl rfl rfl (by decide) (by decide)
  refine ⟨(h.1 sessB).mpr ⟨by decide, by decide⟩,
    fun hm => ((h.1 sessA).mp hm).2 rfl, h.2.1,
    (h.2.2 sessB).mpr ⟨by decide, by decide⟩,
    fun hm => ((h.2.2 sessU2).mp hm).2 rfl⟩

/-- C3 (amended): for both single-use token purposes the first
presentation of a valid unexpired token succeeds and clears the stored
hash and expiry slot.  A second presentation of the same reset token
fails (400 invalid-or-expired); a second presentation of the same
verification token is answered with the 200 already-verified message
(it does not fail, the code short-circuits before any hash comparison). -/
theorem single_use_token_once (C : Crypto)
    (udbV : List User) (uidV secretV : String) (uV : User) (eV : Int)
    (udbR : List User) (sdbR : List Session) (uidR secretR pw salt : String)
    (uR : User) (eR : Int) (now : Int)
    (hfV : udbV.find? (fun x => x.id == uidV) = some uV)
    (hvV : uV.emailVerified = false)
    (htV : uV.emailVerifyToken = some (C.hashToken secretV))
    (heV : uV.emailVerifyExpiresAt = some eV)
    (hnV : ¬ eV < now)
    (hdV : '.' ∉ uidV.data)
    (hfR : udbR.find? (fun x => x.id == uidR) = some uR)
    (htR : uR.resetToken = some (C.hashToken secretR))
    (heR : uR.resetTokenExpiresAt = some eR)
    (hnR : ¬ eR < now)
    (hdR : '.' ∉ uidR.data) :
    (verifyEmailRoute C udbV now (uidV ++ "." ++ secretV)).1 = .verified
  ∧ ((verifyEmailRoute C udbV now (uidV ++ "." ++ secretV)).2.find?
        (fun x => x.id == uidV)
      = some { uV with emailVerified := true, emailVerifyToken := none,
                       emailVerifyExpiresAt := none })
  ∧ (verifyEmailRoute C (verifyEmailRoute C udbV now (uidV ++ "." ++ secretV)).2 now
        (uidV ++ "." ++ secretV)).1 = .alreadyVerified
  ∧ vStatus .alreadyVerified = 200
  ∧ (resetRoute C udbR sdbR now salt (uidR ++ "." ++ secretR) pw).1 = .resetOk
  ∧ ((resetRoute C udbR sdbR now salt (uidR ++ "." ++ secretR) pw).2.1.find?
        (fun x => x.id == uidR)
      = some { uR with passwordHash := hashPassword C salt pw,
                       resetToken := none, resetTokenExpiresAt := none })
  ∧ (resetRoute C (resetRoute C udbR sdbR now salt (uidR ++ "." ++ secretR) pw).2.1
        (resetRoute C udbR sdbR now salt (uidR ++ "." ++ secretR) pw).2.2 now salt
        (uidR ++ "." ++ secretR) pw).1 = .invalidOrExpired
  ∧ rStatus .invalidOrExpired = 400 := by
  have hv1 := verifyEmailRoute_success C udbV uidV secretV uV eV now
    hfV hvV htV heV hnV hdV
  have hvfind := find_update_user udbV uidV
    (fun x => { x with emailVerified := true, emailVerifyToken := none,
                       emailVerifyExpiresAt := none }) (fun _ => rfl)
  rw [hfV] at hvfind
  have hv2 : (verifyEmailRoute C udbV now (uidV ++ "." ++ secretV)).2.find?
      (fun x => x.id == uidV)
      = some { uV with emailVerified := true, emailVerifyToken := none,
                       emailVerifyExpiresAt := none } := by
    rw [hv1]
    exact hvfind
  have hr1 := resetRoute_success C udbR sdbR uidR secretR pw salt uR eR now
    hfR htR heR hnR hdR
  have hrfind := find_update_user udbR uidR
    (fun x => { x with passwordHash := hashPassword C salt pw,
                       resetToken := none, resetTokenExpiresAt := none }) (fun _ => rfl)
  rw [hfR] at hrfind
  have hr2 : (resetRoute C udbR sdbR now salt (uidR ++ "." ++ secretR) pw).2.1.find?
      (fun x => x.id == uidR)
      = some { uR with passwordHash := hashPassword C salt pw,
                       resetToken := none, resetTokenExpiresAt := none } := by
    rw [hr1]
    exact hrfind
  refine ⟨by rw [hv1], hv2, ?_, rfl, by rw [hr1], hr2, ?_, rfl⟩
  · have := verifyEmailRoute_already C
      (verifyEmailRoute C udbV now (uidV ++ "." ++ secretV)).2 uidV secretV
      { uV with emailVerified := true, emailVerifyToken := none,
                emailVerifyExpiresAt := none } now hv2 rfl hdV
    rw [this]
  · have := resetRoute_no_slot C
      (resetRoute C udbR sdbR now salt (uidR ++ "." ++ secretR) pw).2.1
      (resetRoute C udbR sdbR now salt (uidR ++ "." ++ secretR) pw).2.2
      uidR secretR pw salt
      { uR with passwordHash := hashPassword C salt pw,
                resetToken := none, resetTokenExpiresAt := none } now hr2 rfl hdR
    rw [this]

/-- Counterexample for C3 as stated ("a second presentation of the same
token fails"): after a successful email verification, presenting the
very same token again yields the already-verified response with HTTP
status 200 — a success message, not a failure. -/
theorem single_use_token_once_cex :
    (verifyEmailRoute cryptoA
        ((verifyEmailRoute cryptoA [userV] 50 "u1.sec").2) 50 "u1.sec").1
      = .alreadyVerified
  ∧ vStatus (verifyEmailRoute cryptoA
        ((verifyEmailRoute cryptoA [userV] 50 "u1.sec").2) 50 "u1.sec").1 = 200
  ∧ (verifyEmailRoute cryptoA [userV] 50 "u1.sec").1 = .verified := by
  decide

/-- Witness for C3: concrete first/second presentations for both
purposes. -/
theorem single_use_token_once_witness :
    (verifyEmailRoute cryptoA [userV] 50 ("u1" ++ "." ++ "sec")).1 = .verified
  ∧ (verifyEmailRoute cryptoA (verifyEmailRoute cryptoA [userV] 50
        ("u1" ++ "." ++ "sec")).2 50 ("u1" ++ "." ++ "sec")).1 = .alreadyVerified
  ∧ (resetRoute cryptoA [userR] [sessU2] 50 "s" ("u2" ++ "." ++ "rs") "np").1 = .resetOk
  ∧ (resetRoute cryptoA
        (resetRoute cryptoA [userR] [sessU2] 50 "s" ("u2" ++ "." ++ "rs") "np").2.1
        (resetRoute cryptoA [userR] [sessU2] 50 "s" ("u2" ++ "." ++ "rs") "np").2.2
        50 "s" ("u2" ++ "." ++ "rs") "np").1 = .invalidOrExpired := by
  have h := single_use_token_once cryptoA [userV] "u1" "sec" userV 100
    [userR] [sessU2] "u2" "rs" "np" "s" userR 100 50
    rfl rfl rfl rfl (by decide) (by decide)
    rfl rfl rfl (by decide) (by decide)
  exact ⟨h.1, h.2.2.1, h.2.2.2.2.1, h.2.2.2.2.2.2.1⟩

/-- C10: for a user whose `emailVerified` flag is already true,
`GET /auth/verify-email` returns the 200 already-verified message for
any supplied token naming that user — the handler short-circuits before
the secret is ever compared against a stored hash (the result is
independent of the secret and of the hash function) — and the user
table is unchanged. -/
theorem verify_email_already_verified (C : Crypto) (udb : List User)
    (uid secret : String) (u : User) (now : Int)
    (hfind : udb.find? (fun x => x.id == uid) = some u)
    (hver : u.emailVerified = true)
    (hdot : '.' ∉ uid.data) :
    verifyEmailRoute C udb now (uid ++ "." ++ secret) = (.alreadyVerified, udb)
  ∧ vStatus (verifyEmailRoute C udb now (uid ++ "." ++ secret)).1 = 200 := by
  have h := verifyEmailRoute_already C udb uid secret u now hfind hver hdot
  exact ⟨h, by rw [h]; rfl⟩

/-- Witness for C10: an already-verified user and an arbitrary secret
that matches nothing. -/
theorem verify_email_already_verified_witness :
    userR.emailVerified = true
  ∧ verifyEmailRoute cryptoA [userR] 50 ("u2" ++ "." ++ "zzz")
      = (.alreadyVerified, [userR]) := by
  have h := verify_email_already_verified cryptoA [userR] "u2" "zzz" userR 50
    rfl rfl (by decide)
  exact ⟨rfl, h.1⟩
